import Mathlib

/-!
Verification of the argument casting and prompting engine of
`src/struct/commands/arguments/Argument.js`.

The development shallowly embeds the two cores of the file:

* the type-casting interpreter `Argument.cast` (static) together with the
  combinators `union`, `tuple`, `validate`, `range`, `compose`;
* the interactive prompting state machine `Argument#collect` (the inner
  recursive `promptOne` loop) and the orchestration `Argument#process`.

JavaScript values flowing through casting are modelled by `JSVal`; a cast
returns `Except Unit (Option JSVal)` where `Except.error` models a thrown
`TypeError` (e.g. `null.toLowerCase()`), `Except.ok none` models the
`null`/`undefined` cast miss, and `Except.ok (some v)` a successful value.

The prompting loop is modelled as a function consuming a script of
`AwaitOutcome`s (one per `channel.awaitMessages` call: either a reply of the
same author, or a collector timeout).  Message sends are recorded in an event
trace, and the transport is allowed to throw on a send (`sendFails`), which
models a network failure of `channel.send`.
-/

/-- A JavaScript value as far as the casting interpreter observes it.
`vnull` stands for both `null` and `undefined`. -/
inductive JSVal where
  | vnull : JSVal
  | vstr (s : String) : JSVal
  | vint (n : Int) : JSVal
  | vbool (b : Bool) : JSVal
  | vlist (xs : List JSVal) : JSVal
  | vmatch (m : String) (ms : List String) : JSVal

/-- `s.toLowerCase()` on a genuine string (character-wise lowering; defined
on the character list so that it evaluates inside the kernel). -/
def strLower (s : String) : String := String.mk (s.data.map Char.toLower)

/-- `s.trim()` (strip whitespace from both ends). -/
def strTrim (s : String) : String :=
  String.mk (((s.data.dropWhile Char.isWhitespace).reverse.dropWhile
    Char.isWhitespace).reverse)

/-- JavaScript truthiness of a `JSVal` (used by `if (phrase) return phrase`). -/
def jsTruthy : JSVal → Bool
  | JSVal.vnull => false
  | JSVal.vstr s => !s.isEmpty
  | JSVal.vint n => n != 0
  | JSVal.vbool b => b
  | JSVal.vlist _ => true
  | JSVal.vmatch _ _ => true

/-- `x.toLowerCase()` on a JavaScript value: only strings have the method,
any other receiver throws a `TypeError` (modelled as `Except.error ()`). -/
def jsToLowerE : JSVal → Except Unit String
  | JSVal.vstr s => Except.ok (strLower s)
  | _ => Except.error ()

/-- `x.match(regex)` requires the receiver to be a string; any other receiver
throws a `TypeError`. -/
def jsAsStringE : JSVal → Except Unit String
  | JSVal.vstr s => Except.ok s
  | _ => Except.error ()

/-- `res != null ? res : null` : collapse a raw caster result to an optional
value, treating `vnull` as the miss. -/
def jsNonNull : JSVal → Option JSVal
  | JSVal.vnull => none
  | r => some r

/-- The value handed to the second type by `compose`: a miss is passed on as
the raw `null`. -/
def jsOfOpt : Option JSVal → JSVal
  | none => JSVal.vnull
  | some v => v

/-- One entry of an enumeration (array) type: either a bare string, or an
alias group (an inner array) whose first element is the canonical value. -/
inductive EnumEntry where
  | single (s : String) : EnumEntry
  | group (ss : List String) : EnumEntry

/-- The enumeration branch of `Argument.cast`: for each entry, a bare string
is compared case-insensitively with the phrase, and an alias group matches if
`entry.some(t => t.toLowerCase() === phrase.toLowerCase())`; the group's first
element is returned.  The phrase's `toLowerCase()` is evaluated only when a
comparison actually runs, so an empty type array (or an empty alias group)
never touches the phrase. -/
def castEnum : List EnumEntry → JSVal → Except Unit (Option JSVal)
  | [], _ => Except.ok none
  | EnumEntry.single s :: rest, p =>
    match jsToLowerE p with
    | Except.error e => Except.error e
    | Except.ok pl =>
      if strLower s = pl then Except.ok (some (JSVal.vstr s)) else castEnum rest p
  | EnumEntry.group [] :: rest, p => castEnum rest p
  | EnumEntry.group (s0 :: ss) :: rest, p =>
    match jsToLowerE p with
    | Except.error e => Except.error e
    | Except.ok pl =>
      if (s0 :: ss).any (fun t => strLower t == pl) then
        Except.ok (some (JSVal.vstr s0))
      else castEnum rest p

/-- A regular expression, abstracted by its observable behaviour on strings:
the first match, the `global` flag, and the list of all matches. -/
structure RePattern where
  test : String → Option String
  global : Bool
  allMatches : String → List String

/-- The injected type registry (`this.handler.resolver`): a named lookup to a
registered caster function.  Registered casters are total (exceptions are
reserved for transport failures). -/
def Resolver : Type := String → Option (JSVal → JSVal)

/-- A type spec as accepted by `Argument.cast`: an array (enumeration), a
caster function, a regular expression, a name looked up in the resolver, or
one of the combinator closures built by `Argument.union`, `Argument.tuple`,
`Argument.validate` (also `Argument.range`) and `Argument.compose`.  The
combinators are closures over nested type specs in the source; here they are
constructors interpreted by `argCast`. -/
inductive ArgType where
  | enumeration (entries : List EnumEntry) : ArgType
  | caster (f : JSVal → JSVal) : ArgType
  | pattern (re : RePattern) : ArgType
  | named (n : String) : ArgType
  | union (ts : List ArgType) : ArgType
  | tuple (ts : List ArgType) : ArgType
  | validate (t : ArgType) (pred : JSVal → JSVal → Bool) : ArgType
  | compose (t1 t2 : ArgType) (ignoreVoid : Bool) : ArgType

mutual

/-- `Argument.cast(type, resolver, phrase, message, args)` — the static
casting interpreter.  Branch order mirrors the source: array, function,
regular expression, resolver lookup, raw-phrase fallback.  Combinator
constructors are interpreted by the bodies of the closures the corresponding
static combinator would have returned. -/
def argCast (rv : Resolver) : ArgType → JSVal → Except Unit (Option JSVal)
  | ArgType.enumeration entries, p => castEnum entries p
  | ArgType.caster f, p => Except.ok (jsNonNull (f p))
  | ArgType.pattern re, p =>
    match jsAsStringE p with
    | Except.error e => Except.error e
    | Except.ok s =>
      match re.test s with
      | none => Except.ok none
      | some m =>
        Except.ok (some (JSVal.vmatch m (if re.global then re.allMatches s else [])))
  | ArgType.named n, p =>
    match rv n with
    | some f => Except.ok (jsNonNull (f p))
    | none => Except.ok (if jsTruthy p then some p else none)
  | ArgType.union ts, p => castUnion rv ts p
  | ArgType.tuple ts, p =>
    match castTuple rv ts p with
    | Except.error e => Except.error e
    | Except.ok none => Except.ok none
    | Except.ok (some rs) => Except.ok (some (JSVal.vlist rs))
  | ArgType.validate t pred, p =>
    match argCast rv t p with
    | Except.error e => Except.error e
    | Except.ok none => Except.ok none
    | Except.ok (some v) =>
      Except.ok (if pred v p then some v else none)
  | ArgType.compose t1 t2 iv, p =>
    match argCast rv t1 p with
    | Except.error e => Except.error e
    | Except.ok r =>
      if r.isNone && !iv then Except.ok none
      else argCast rv t2 (jsOfOpt r)
termination_by t _ => sizeOf t

/-- The loop body of `Argument.union`: try each sub-type in order and return
the first non-null result; null if all miss. -/
def castUnion (rv : Resolver) : List ArgType → JSVal → Except Unit (Option JSVal)
  | [], _ => Except.ok none
  | t :: rest, p =>
    match argCast rv t p with
    | Except.error e => Except.error e
    | Except.ok (some v) => Except.ok (some v)
    | Except.ok none => castUnion rv rest p
termination_by ts _ => sizeOf ts

/-- The loop body of `Argument.tuple`: every sub-type is run on the same
phrase; any miss makes the whole tuple miss. -/
def castTuple (rv : Resolver) : List ArgType → JSVal → Except Unit (Option (List JSVal))
  | [], _ => Except.ok (some [])
  | t :: rest, p =>
    match argCast rv t p with
    | Except.error e => Except.error e
    | Except.ok none => Except.ok none
    | Except.ok (some v) =>
      match castTuple rv rest p with
      | Except.error e => Except.error e
      | Except.ok none => Except.ok none
      | Except.ok (some vs) => Except.ok (some (v :: vs))
termination_by ts _ => sizeOf ts

end

/-- `Argument.range(type, min, max, inclusive)`: a validate wrapper checking
`x >= min && (inclusive ? x <= max : x < max)` on the parsed value (numeric
comparison; a non-numeric parsed value compares false). -/
def Argument.range (t : ArgType) (lo hi : Int) (inclusive : Bool) : ArgType :=
  ArgType.validate t (fun x _ =>
    match x with
    | JSVal.vint n => decide (lo ≤ n) && (if inclusive then decide (n ≤ hi) else decide (n < hi))
    | _ => false)

mutual

/-- `compose`-freeness of a type spec: no `compose` combinator anywhere.
Every other combinator re-runs its sub-types on the same (string) phrase. -/
def composeFree : ArgType → Bool
  | ArgType.enumeration _ => true
  | ArgType.caster _ => true
  | ArgType.pattern _ => true
  | ArgType.named _ => true
  | ArgType.union ts => composeFreeList ts
  | ArgType.tuple ts => composeFreeList ts
  | ArgType.validate t _ => composeFree t
  | ArgType.compose _ _ _ => false
termination_by t => sizeOf t

/-- `composeFree` over a combinator's list of sub-types. -/
def composeFreeList : List ArgType → Bool
  | [] => true
  | t :: ts => composeFree t && composeFreeList ts
termination_by ts => sizeOf ts

end

/-! ## The prompting state machine (`Argument#collect`) -/

/-- The conversational phase whose text is being resolved — the `promptType`
string passed to `getText` in the source. -/
inductive PType where
  | start : PType
  | retry : PType
  | timeout : PType
  | ended : PType
  | cancel : PType
deriving DecidableEq

/-- A configured content descriptor for one phase: literal text, a list of
lines (joined with newlines), or a supplier function of
`(retries, infinite, phrase)` (the message argument carries no further
information observable by this model). -/
inductive Prompter where
  | text (s : String) : Prompter
  | lines (ls : List String) : Prompter
  | fn (f : Nat → Bool → String → String) : Prompter

/-- A per-phase modifier function of `(text, retries, infinite, phrase)`. -/
def Modifier : Type := String → Nat → Bool → String → String

/-- The merged prompt options (`promptOptions` after the three
`Object.assign` layers), with the defaults documented on
`ArgumentPromptOptions` filled in for absent fields; `limit = none` models the
default `Infinity`. -/
structure PromptOptions where
  retries : Nat
  cancelWord : String
  stopWord : String
  infinite : Bool
  limit : Option Nat
  breakout : Bool
  start : Option Prompter
  retry : Option Prompter
  timeout : Option Prompter
  ended : Option Prompter
  cancel : Option Prompter
  modifyStart : Option Modifier
  modifyRetry : Option Modifier
  modifyTimeout : Option Modifier
  modifyEnded : Option Modifier
  modifyCancel : Option Modifier

/-- An observable event of one `collect` invocation: the session registry
calls (`handler.addPrompt` / `handler.removePrompt`), a message sent on the
channel tagged with its phase, a cast attempt on a reply with its content
(`this.cast(input.content, ...)`), and a push onto the infinite-mode `values`
array. -/
inductive Ev where
  | addPrompt : Ev
  | removePrompt : Ev
  | sent (pt : PType) (t : String) : Ev
  | castAttempt (c : String) : Ev
  | pushed (v : JSVal) : Ev

/-- What one `channel.awaitMessages` call produces: either a reply with the
given content from the prompted author, or a collector timeout. -/
inductive AwaitOutcome where
  | timeout : AwaitOutcome
  | reply (content : String) : AwaitOutcome

/-- The result of `collect`: a single cast value, the infinite-mode list, the
`ParsingFlag.cancel()` flag, the `ParsingFlag.retry(input)` flag, or an
exception propagating out of `collect` (a transport `send` failure). -/
inductive CollectOutcome where
  | value (v : JSVal) : CollectOutcome
  | list (vs : List JSVal) : CollectOutcome
  | cancelFlag : CollectOutcome
  | retryFlag (content : String) : CollectOutcome
  | thrown : CollectOutcome

/-- The prior-arguments object `args`, keyed by argument id. -/
def Args : Type := List (String × JSVal)

/-- Property lookup on `args`. -/
def lookupArg : Args → String → Option JSVal
  | [], _ => none
  | (k, v) :: rest, id => if k = id then some v else lookupArg rest id

/-- Property assignment `args[id] = v` (overwrite or append). -/
def insertArg : Args → String → JSVal → Args
  | [], id, v => [(id, v)]
  | (k, w) :: rest, id, v =>
    if k = id then (k, v) :: rest else (k, w) :: insertArg rest id v

/-- The infinite-mode accumulation array as visible through `args[id]`
(`values` and `args[this.id]` are the same array object in the source, so the
machine keeps the single store entry). -/
def argVals (args : Args) (id : String) : List JSVal :=
  match lookupArg args id with
  | some (JSVal.vlist vs) => vs
  | _ => []

/-- The per-session constants of one `collect` invocation: the merged
options, the computed `isInfinite` and `additionalRetry`, the seed
`commandInput`, the content of the triggering message, the argument id, and
the external collaborators (`this.cast`, `handler.parseCommand`, and the
transport's failure behaviour on `send`). -/
structure SessCtx where
  opts : PromptOptions
  isInfinite : Bool
  additionalRetry : Nat
  commandInput : String
  msgContent : String
  argId : String
  castF : String → Except Unit (Option JSVal)
  parseCmd : String → Bool
  sendFails : String → Bool

/-- `getText(promptType, prompter, retryCount, inputMessage, inputPhrase)`:
resolve a content descriptor (invoking a supplier function, joining a list of
lines), then apply the phase's modifier if configured.  `none` models an
unconfigured descriptor (`undefined` text, which is falsy and not sent). -/
def getText (isInf : Bool) (opts : PromptOptions) (pt : PType)
    (prompter : Option Prompter) (retryCount : Nat) (inputPhrase : String) :
    Option String :=
  match prompter with
  | none => none
  | some pr =>
    let text :=
      match pr with
      | Prompter.text s => s
      | Prompter.lines ls => String.intercalate "\n" ls
      | Prompter.fn f => f retryCount isInf inputPhrase
    let md :=
      match pt with
      | PType.start => opts.modifyStart
      | PType.retry => opts.modifyRetry
      | PType.timeout => opts.modifyTimeout
      | PType.ended => opts.modifyEnded
      | PType.cancel => opts.modifyCancel
    match md with
    | some m => some (m text retryCount isInf inputPhrase)
    | none => some text

/-- The send decision at the top of `promptOne`: whether a prompt is emitted
this turn and, if so, with which phase tag and text.  `shouldSend` is
`retryCount === 1 ? !isInfinite || (isInfinite && !values.length) : true`;
the phase and descriptor are `start` on `retryCount === 1` and `retry`
otherwise; `prevInput` is the seed `commandInput` while
`retryCount <= 1 + additionalRetry` and the previous reply's content
afterwards.  An empty resolved text is falsy and not sent. -/
def sendPhase (ctx : SessCtx) (values : List JSVal) (prevContent : String)
    (retryCount : Nat) : Option (PType × String) :=
  let shouldSend :=
    if retryCount = 1 then !ctx.isInfinite || values.isEmpty else true
  if shouldSend then
    let prevInput :=
      if retryCount ≤ 1 + ctx.additionalRetry then ctx.commandInput else prevContent
    let pt := if retryCount = 1 then PType.start else PType.retry
    let prompter := if retryCount = 1 then ctx.opts.start else ctx.opts.retry
    match getText ctx.isInfinite ctx.opts pt prompter retryCount prevInput with
    | some t => if t = "" then none else some (pt, t)
    | none => none
  else none

/-- The events of a successful start/retry send (empty when nothing is
sent). -/
def sendEvs (ctx : SessCtx) (values : List JSVal) (prevContent : String)
    (retryCount : Nat) : List Ev :=
  match sendPhase ctx values prevContent retryCount with
  | some (pt, t) => [Ev.sent pt t]
  | none => []

/-- Perform the start/retry send, threading a transport failure. -/
def stepSend (ctx : SessCtx) (values : List JSVal) (prevContent : String)
    (retryCount : Nat) : Except Unit (List Ev) :=
  match sendPhase ctx values prevContent retryCount with
  | some (pt, t) =>
    if ctx.sendFails t then Except.error () else Except.ok [Ev.sent pt t]
  | none => Except.ok []

/-- Resolve and send one of the terminal texts (timeout / ended / cancel):
`const text = getText(...); if (text) await channel.send(text)`. -/
def sendSimple (ctx : SessCtx) (pt : PType) (prompter : Option Prompter)
    (retryCount : Nat) (inputPhrase : String) : Except Unit (List Ev) :=
  match getText ctx.isInfinite ctx.opts pt prompter retryCount inputPhrase with
  | some t =>
    if t = "" then Except.ok []
    else if ctx.sendFails t then Except.error () else Except.ok [Ev.sent pt t]
  | none => Except.ok []

/-- The events of a successful terminal-text send. -/
def simpleEvs (ctx : SessCtx) (pt : PType) (prompter : Option Prompter)
    (retryCount : Nat) (inputPhrase : String) : List Ev :=
  match getText ctx.isInfinite ctx.opts pt prompter retryCount inputPhrase with
  | some t => if t = "" then [] else [Ev.sent pt t]
  | none => []

/-- The timeout branch of `promptOne` (the `catch` of `awaitMessages` with
`errors: ['time']`): resolve and send the `timeout` text if configured, then
return `ParsingFlag.cancel()`.  The start/retry send of the same turn has
already happened. -/
def timeoutStep (ctx : SessCtx) (args : Args) (prevContent : String)
    (retryCount : Nat) : List Ev × Args × CollectOutcome :=
  let values := argVals args ctx.argId
  match stepSend ctx values prevContent retryCount with
  | Except.error _ => ([], args, CollectOutcome.thrown)
  | Except.ok evs0 =>
    match sendSimple ctx PType.timeout ctx.opts.timeout retryCount "" with
    | Except.error _ => (evs0, args, CollectOutcome.thrown)
    | Except.ok evs1 => (evs0 ++ evs1, args, CollectOutcome.cancelFlag)

/-- The recursive turn loop `promptOne(prevMessage, retryCount)`, consuming
one `AwaitOutcome` per turn.  An exhausted script behaves as a timeout (no
further reply ever arrives).  Per turn, in source order: the start/retry send
decision; the await; the breakout check (`handler.parseCommand`); the
cancel-word check; the infinite-mode stop-word check (re-prompting with
`retryCount + 1` while no values are accumulated); the cast; on a miss either
a retry with `retryCount + 1` or the `ended` text and cancel; on a success
either the single value, or an infinite-mode push followed by a silent
continuation with `retryCount` reset to `1` (`promptOne(message, 1)`) or, at
the limit, the accumulated list. -/
def promptOne (ctx : SessCtx) :
    List AwaitOutcome → Args → String → Nat → List Ev × Args × CollectOutcome
  | [], args, prevContent, retryCount => timeoutStep ctx args prevContent retryCount
  | AwaitOutcome.timeout :: _, args, prevContent, retryCount =>
    timeoutStep ctx args prevContent retryCount
  | AwaitOutcome.reply c :: rest, args, prevContent, retryCount =>
    let values := argVals args ctx.argId
    match stepSend ctx values prevContent retryCount with
    | Except.error _ => ([], args, CollectOutcome.thrown)
    | Except.ok evs0 =>
      if ctx.opts.breakout && ctx.parseCmd c then
        (evs0, args, CollectOutcome.retryFlag c)
      else if strLower c = strLower ctx.opts.cancelWord then
        match sendSimple ctx PType.cancel ctx.opts.cancel retryCount "" with
        | Except.error _ => (evs0, args, CollectOutcome.thrown)
        | Except.ok evs1 => (evs0 ++ evs1, args, CollectOutcome.cancelFlag)
      else if ctx.isInfinite && strLower c = strLower ctx.opts.stopWord then
        if values.isEmpty then
          let r := promptOne ctx rest args c (retryCount + 1)
          (evs0 ++ r.1, r.2.1, r.2.2)
        else (evs0, args, CollectOutcome.list values)
      else
        match ctx.castF c with
        | Except.error _ => (evs0 ++ [Ev.castAttempt c], args, CollectOutcome.thrown)
        | Except.ok none =>
          if retryCount ≤ ctx.opts.retries then
            let r := promptOne ctx rest args c (retryCount + 1)
            (evs0 ++ Ev.castAttempt c :: r.1, r.2.1, r.2.2)
          else
            match sendSimple ctx PType.ended ctx.opts.ended retryCount c with
            | Except.error _ => (evs0 ++ [Ev.castAttempt c], args, CollectOutcome.thrown)
            | Except.ok evs1 =>
              (evs0 ++ Ev.castAttempt c :: evs1, args, CollectOutcome.cancelFlag)
        | Except.ok (some v) =>
          if ctx.isInfinite then
            let newVals := values ++ [v]
            let args1 := insertArg args ctx.argId (JSVal.vlist newVals)
            let keep :=
              match ctx.opts.limit with
              | none => true
              | some l => decide (newVals.length < l)
            if keep then
              let r := promptOne ctx rest args1 ctx.msgContent 1
              (evs0 ++ Ev.castAttempt c :: Ev.pushed v :: r.1, r.2.1, r.2.2)
            else
              (evs0 ++ [Ev.castAttempt c, Ev.pushed v], args1,
                CollectOutcome.list newVals)
          else (evs0 ++ [Ev.castAttempt c], args, CollectOutcome.value v)

/-- The match mode of the argument (`ArgumentMatches`). -/
inductive ArgMatch where
  | phrase : ArgMatch
  | rest : ArgMatch
  | separate : ArgMatch
  | flag : ArgMatch
  | option : ArgMatch
  | text : ArgMatch
  | content : ArgMatch
  | none : ArgMatch
deriving DecidableEq

/-- `Argument#collect(message, args, commandInput)` after the option merge:
compute `isInfinite` (separate-match arguments that already consumed a seed
phrase do not re-enter infinite mode) and `additionalRetry`; in infinite mode
bind `args[this.id]` to the fresh accumulation array; register the prompt in
the session registry; run `promptOne(message, 1 + additionalRetry)`; then
unregister and return.  There is no `try`/`finally`: when `promptOne` throws
(a transport failure), `handler.removePrompt` is *not* reached and the
exception propagates. -/
def Argument.collectWith (opts : PromptOptions) (amatch : ArgMatch)
    (argId : String) (castF : String → Except Unit (Option JSVal))
    (parseCmd : String → Bool) (sendFails : String → Bool)
    (msgContent commandInput : String) (args : Args)
    (script : List AwaitOutcome) : List Ev × Args × CollectOutcome :=
  let isInfinite := opts.infinite && (amatch != ArgMatch.separate || commandInput == "")
  let additionalRetry := if commandInput == "" then 0 else 1
  let args0 :=
    if isInfinite then insertArg args argId (JSVal.vlist []) else args
  let ctx : SessCtx :=
    ⟨opts, isInfinite, additionalRetry, commandInput, msgContent, argId,
      castF, parseCmd, sendFails⟩
  let r := promptOne ctx script args0 msgContent (1 + additionalRetry)
  match r.2.2 with
  | CollectOutcome.thrown => (Ev.addPrompt :: r.1, r.2.1, CollectOutcome.thrown)
  | out => (Ev.addPrompt :: (r.1 ++ [Ev.removePrompt]), r.2.1, out)

/-! ## Option layers and `Argument#process` -/

/-- One prompt-configuration layer before merging (`handler.defaultPrompt`,
`command.defaultPrompt`, or the argument's own `prompt`); `none` fields are
absent properties that `Object.assign` leaves untouched. -/
structure PromptLayer where
  retries : Option Nat := none
  cancelWord : Option String := none
  stopWord : Option String := none
  optional : Option Bool := none
  infinite : Option Bool := none
  limit : Option Nat := none
  breakout : Option Bool := none
  start : Option Prompter := none
  retry : Option Prompter := none
  timeout : Option Prompter := none
  ended : Option Prompter := none
  cancel : Option Prompter := none
  modifyStart : Option Modifier := none
  modifyRetry : Option Modifier := none
  modifyTimeout : Option Modifier := none
  modifyEnded : Option Modifier := none
  modifyCancel : Option Modifier := none

/-- Field-wise `Object.assign`: a property present on the later layer wins. -/
def orField {α : Type} (a b : Option α) : Option α :=
  match b with
  | some x => some x
  | none => a

/-- `Object.assign` of two layers, the second overriding the first. -/
def mergeTwo (x y : PromptLayer) : PromptLayer :=
  { retries := orField x.retries y.retries
    cancelWord := orField x.cancelWord y.cancelWord
    stopWord := orField x.stopWord y.stopWord
    optional := orField x.optional y.optional
    infinite := orField x.infinite y.infinite
    limit := orField x.limit y.limit
    breakout := orField x.breakout y.breakout
    start := orField x.start y.start
    retry := orField x.retry y.retry
    timeout := orField x.timeout y.timeout
    ended := orField x.ended y.ended
    cancel := orField x.cancel y.cancel
    modifyStart := orField x.modifyStart y.modifyStart
    modifyRetry := orField x.modifyRetry y.modifyRetry
    modifyTimeout := orField x.modifyTimeout y.modifyTimeout
    modifyEnded := orField x.modifyEnded y.modifyEnded
    modifyCancel := orField x.modifyCancel y.modifyCancel }

/-- An absent layer contributes nothing (`this.prompt || {}`). -/
def layerOrEmpty : Option PromptLayer → PromptLayer
  | some l => l
  | none => {}

/-- The three `Object.assign` calls of `collect`: handler default, then
command default, then the argument's own prompt options. -/
def mergeLayers (h c a : Option PromptLayer) : PromptLayer :=
  mergeTwo (mergeTwo (layerOrEmpty h) (layerOrEmpty c)) (layerOrEmpty a)

/-- Fill the defaults documented on `ArgumentPromptOptions` (the handler-side
defaults are outside `src/`; the documented defaults are `retries = 1`,
`cancelWord = 'cancel'`, `stopWord = 'stop'`, `infinite = false`,
`limit = Infinity`, `breakout = true`). -/
def resolveOptions (l : PromptLayer) : PromptOptions :=
  { retries := l.retries.getD 1
    cancelWord := l.cancelWord.getD "cancel"
    stopWord := l.stopWord.getD "stop"
    infinite := l.infinite.getD false
    limit := l.limit
    breakout := l.breakout.getD true
    start := l.start
    retry := l.retry
    timeout := l.timeout
    ended := l.ended
    cancel := l.cancel
    modifyStart := l.modifyStart
    modifyRetry := l.modifyRetry
    modifyTimeout := l.modifyTimeout
    modifyEnded := l.modifyEnded
    modifyCancel := l.modifyCancel }

/-- `layer && layer.optional` — the truthiness test `process` applies to one
prompt-configuration layer. -/
def layerOptional : Option PromptLayer → Bool
  | Option.none => false
  | some l =>
    match l.optional with
    | some b => b
    | none => false

/-- The argument's `default`: a literal value or a supplier function of the
message context and prior results (a promise result is awaited; value
semantics are unchanged). -/
inductive DefaultV where
  | lit (v : JSVal) : DefaultV
  | fnD (f : Args → JSVal) : DefaultV

/-- Resolve the default value (invoke if function, await if asynchronous). -/
def resolveDefault : DefaultV → Args → JSVal
  | DefaultV.lit v, _ => v
  | DefaultV.fnD f, a => f a

/-- The result of `Argument#process`. -/
inductive ProcResult where
  | val (v : JSVal) : ProcResult
  | listVal (vs : List JSVal) : ProcResult
  | cancelFlag : ProcResult
  | retryFlag (content : String) : ProcResult
  | procThrown : ProcResult

/-- Lift a `collect` outcome into a `process` result. -/
def ofOutcome : CollectOutcome → ProcResult
  | CollectOutcome.value v => ProcResult.val v
  | CollectOutcome.list vs => ProcResult.listVal vs
  | CollectOutcome.cancelFlag => ProcResult.cancelFlag
  | CollectOutcome.retryFlag c => ProcResult.retryFlag c
  | CollectOutcome.thrown => ProcResult.procThrown

/-- `Argument#process(phrase, message, args)`: trim the phrase; if it is
empty and any of the three prompt layers marks `optional`, resolve and return
the default without casting or prompting; otherwise cast, and on a miss
either hand off to `collect` (only when the argument has its own `prompt`
options) or resolve the default.  The event trace records every cast attempt
and the session bookkeeping of a prompt handoff. -/
def Argument.process (atype : ArgType) (rv : Resolver)
    (argPrompt cmdPrompt handlerPrompt : Option PromptLayer) (dflt : DefaultV)
    (amatch : ArgMatch) (argId : String) (parseCmd : String → Bool)
    (sendFails : String → Bool) (msgContent : String) (args : Args)
    (script : List AwaitOutcome) (phrase : String) :
    List Ev × Args × ProcResult :=
  let p := strTrim phrase
  let isOptional :=
    layerOptional argPrompt || layerOptional cmdPrompt || layerOptional handlerPrompt
  if p == "" && isOptional then ([], args, ProcResult.val (resolveDefault dflt args))
  else
    match argCast rv atype (JSVal.vstr p) with
    | Except.error _ => ([Ev.castAttempt p], args, ProcResult.procThrown)
    | Except.ok (some v) => ([Ev.castAttempt p], args, ProcResult.val v)
    | Except.ok none =>
      match argPrompt with
      | some ap =>
        let opts := resolveOptions (mergeLayers handlerPrompt cmdPrompt (some ap))
        let r := Argument.collectWith opts amatch argId
          (fun s => argCast rv atype (JSVal.vstr s)) parseCmd sendFails
          msgContent p args script
        (Ev.castAttempt p :: r.1, r.2.1, ofOutcome r.2.2)
      | none => ([Ev.castAttempt p], args, ProcResult.val (resolveDefault dflt args))

/-! ## Trace observations -/

/-- The number of cast attempts recorded in a trace. -/
def countCast (evs : List Ev) : Nat :=
  evs.countP (fun e => match e with | Ev.castAttempt _ => true | _ => false)

/-- The values pushed onto the infinite-mode accumulation array, in order. -/
def pushedVals : List Ev → List JSVal
  | [] => []
  | Ev.pushed v :: rest => v :: pushedVals rest
  | _ :: rest => pushedVals rest

/-- The number of cast attempts a failing non-infinite session performs when
entered at `retryCount = rc` with retry budget `r`: one per turn from `rc` up
to the first turn exceeding `r`. -/
def attemptsTarget (r rc : Nat) : Nat :=
  if rc ≤ r then r + 2 - rc else 1

/-! ## Concrete instances used by witnesses and counterexamples -/

/-- The merged options of a session whose three layers configure nothing:
all documented defaults. -/
def optsDefault : PromptOptions := resolveOptions {}

/-! ## Helper lemmas -/

theorem stepSend_ok (ctx : SessCtx) (hsf : ∀ t, ctx.sendFails t = false)
    (values : List JSVal) (prev : String) (rc : Nat) :
    stepSend ctx values prev rc = Except.ok (sendEvs ctx values prev rc) := by
  unfold stepSend sendEvs
  cases h : sendPhase ctx values prev rc with
  | none => rfl
  | some pt => cases pt with
    | mk pt t => simp [hsf]

theorem sendSimple_ok (ctx : SessCtx) (hsf : ∀ t, ctx.sendFails t = false)
    (pt : PType) (pr : Option Prompter) (rc : Nat) (ph : String) :
    sendSimple ctx pt pr rc ph = Except.ok (simpleEvs ctx pt pr rc ph) := by
  unfold sendSimple simpleEvs
  cases h : getText ctx.isInfinite ctx.opts pt pr rc ph with
  | none => rfl
  | some t =>
    by_cases he : t = "" <;> simp [he, hsf]

theorem lookupArg_insertArg (args : Args) (id : String) (v : JSVal) :
    lookupArg (insertArg args id v) id = some v := by
  induction args with
  | nil => simp [insertArg, lookupArg]
  | cons kv rest ih =>
    cases kv with
    | mk k w =>
      by_cases h : k = id <;> simp [insertArg, lookupArg, h, ih]

theorem countCast_append (a b : List Ev) :
    countCast (a ++ b) = countCast a + countCast b := by
  unfold countCast
  exact List.countP_append _ _ _

theorem pushedVals_append (a b : List Ev) :
    pushedVals (a ++ b) = pushedVals a ++ pushedVals b := by
  induction a with
  | nil => rfl
  | cons e rest ih => cases e <;> simp [pushedVals, ih]

theorem countCast_sendEvs (ctx : SessCtx) (values : List JSVal) (prev : String)
    (rc : Nat) : countCast (sendEvs ctx values prev rc) = 0 := by
  unfold sendEvs
  cases h : sendPhase ctx values prev rc with
  | none => rfl
  | some pt => cases pt with
    | mk pt t => simp [countCast]

theorem countCast_simpleEvs (ctx : SessCtx) (pt : PType) (pr : Option Prompter)
    (rc : Nat) (ph : String) : countCast (simpleEvs ctx pt pr rc ph) = 0 := by
  unfold simpleEvs
  cases h : getText ctx.isInfinite ctx.opts pt pr rc ph with
  | none => rfl
  | some t => by_cases he : t = "" <;> simp [he, countCast]

theorem pushedVals_sendEvs (ctx : SessCtx) (values : List JSVal) (prev : String)
    (rc : Nat) : pushedVals (sendEvs ctx values prev rc) = [] := by
  unfold sendEvs
  cases h : sendPhase ctx values prev rc with
  | none => rfl
  | some pt => cases pt with
    | mk pt t => simp [pushedVals]

theorem pushedVals_simpleEvs (ctx : SessCtx) (pt : PType) (pr : Option Prompter)
    (rc : Nat) (ph : String) : pushedVals (simpleEvs ctx pt pr rc ph) = [] := by
  unfold simpleEvs
  cases h : getText ctx.isInfinite ctx.opts pt pr rc ph with
  | none => rfl
  | some t => by_cases he : t = "" <;> simp [he, pushedVals]

/-! ## C5 — breakout precedes cancel, stop and cast -/

/-- C5: with breakout enabled, a reply that parses as a command makes the
session terminate with `Retry(reply)` immediately after the send phase: no
cancel check, no stop check, and no cast attempt is applied to that reply
(the turn's trace is the send events alone), even if the reply equals the
cancel word or the stop word. -/
theorem C5_breakout_first (ctx : SessCtx) (hsf : ∀ t, ctx.sendFails t = false)
    (script : List AwaitOutcome) (args : Args) (prev c : String) (rc : Nat)
    (hb : ctx.opts.breakout = true) (hp : ctx.parseCmd c = true) :
    promptOne ctx (AwaitOutcome.reply c :: script) args prev rc
      = (sendEvs ctx (argVals args ctx.argId) prev rc, args,
         CollectOutcome.retryFlag c) := by
  simp only [promptOne, stepSend_ok ctx hsf, hb, hp, Bool.and_self, if_true]

/-- Witness for C5 at a concrete session whose reply is exactly the cancel
word: breakout still wins. -/
theorem C5_breakout_first_witness :
    promptOne
      ⟨{ optsDefault with breakout := true }, false, 0, "", "m", "a",
        fun _ => Except.ok none, fun _ => true, fun _ => false⟩
      [AwaitOutcome.reply "cancel"] [] "m" 1
      = ([], [], CollectOutcome.retryFlag "cancel") :=
  C5_breakout_first _ (fun _ => rfl) [] [] "m" "cancel" 1 rfl rfl

/-! ## C6 — timeouts always cancel -/

/-- C6: when the await of a turn times out, `collect` resolves the `timeout`
text (sending it when configured and non-empty) and the session terminates
with `Cancel`; the outcome is never a value nor a (partial) infinite-mode
list. -/
theorem C6_timeout_cancel (ctx : SessCtx) (hsf : ∀ t, ctx.sendFails t = false)
    (script : List AwaitOutcome) (args : Args) (prev : String) (rc : Nat) :
    promptOne ctx (AwaitOutcome.timeout :: script) args prev rc
      = (sendEvs ctx (argVals args ctx.argId) prev rc
          ++ simpleEvs ctx PType.timeout ctx.opts.timeout rc "", args,
         CollectOutcome.cancelFlag) := by
  simp only [promptOne, timeoutStep, stepSend_ok ctx hsf, sendSimple_ok ctx hsf]

/-- Witness for C6: a concrete infinite session with one value already
accumulated and a configured timeout text still cancels on timeout (no
partial list), sending the timeout text. -/
theorem C6_timeout_cancel_witness :
    promptOne
      ⟨{ optsDefault with infinite := true, timeout := some (Prompter.text "T") },
        true, 0, "", "m", "a", fun _ => Except.ok none, fun _ => false,
        fun _ => false⟩
      [AwaitOutcome.timeout] [("a", JSVal.vlist [JSVal.vstr "1"])] "m" 2
      = ([Ev.sent PType.timeout "T"], [("a", JSVal.vlist [JSVal.vstr "1"])],
         CollectOutcome.cancelFlag) :=
  C6_timeout_cancel _ (fun _ => rfl) [] [("a", JSVal.vlist [JSVal.vstr "1"])] "m" 2

/-- In any session, a successful list outcome is never the empty list (the
stop word cannot terminate before a first value has been accumulated). -/
theorem promptOne_list_ne_nil (ctx : SessCtx) :
    ∀ (script : List AwaitOutcome) (args : Args) (prev : String) (rc : Nat)
      (vs : List JSVal),
      (promptOne ctx script args prev rc).2.2 = CollectOutcome.list vs →
      vs ≠ [] := by
  intro script
  induction script with
  | nil =>
    intro args prev rc vs h
    simp only [promptOne, timeoutStep] at h
    rcases hstep : stepSend ctx (argVals args ctx.argId) prev rc with e | evs0
    · rw [hstep] at h; simp at h
    · rw [hstep] at h
      rcases hsim : sendSimple ctx PType.timeout ctx.opts.timeout rc "" with e | evs1 <;>
        rw [hsim] at h <;> simp at h
  | cons head tail ih =>
    intro args prev rc vs
    cases head with
    | timeout =>
      intro h
      simp only [promptOne, timeoutStep] at h
      rcases hstep : stepSend ctx (argVals args ctx.argId) prev rc with e | evs0
      · rw [hstep] at h; simp at h
      · rw [hstep] at h
        rcases hsim : sendSimple ctx PType.timeout ctx.opts.timeout rc "" with e | evs1 <;>
          rw [hsim] at h <;> simp at h
    | reply c =>
      intro h
      simp only [promptOne] at h
      rcases hstep : stepSend ctx (argVals args ctx.argId) prev rc with e | evs0
      · rw [hstep] at h; simp at h
      · rw [hstep] at h
        dsimp only at h
        split at h
        · simp at h
        · split at h
          · rcases hsim : sendSimple ctx PType.cancel ctx.opts.cancel rc "" with e | evs1 <;>
              rw [hsim] at h <;> simp at h
          · split at h
            · rename_i hstop
              split at h
              · exact ih _ _ _ vs (by simpa using h)
              · rename_i hne
                simp only [CollectOutcome.list.injEq] at h
                subst h
                intro hemp
                rw [hemp] at hne
                simp at hne
            · rcases hcast : ctx.castF c with e | ro
              · rw [hcast] at h; simp at h
              · rw [hcast] at h
                cases ro with
                | none =>
                  dsimp only at h
                  split at h
                  · exact ih _ _ _ vs (by simpa using h)
                  · rcases hsim : sendSimple ctx PType.ended ctx.opts.ended rc c with e | evs1 <;>
                      rw [hsim] at h <;> simp at h
                | some v =>
                  dsimp only at h
                  split at h
                  · split at h
                    · exact ih _ _ _ vs (by simpa using h)
                    · simp only [CollectOutcome.list.injEq] at h
                      subst h
                      simp
                  · simp at h

/-! ## C3 — infinite-mode termination -/

/-- C3: in an infinite session (and absent transport failures), (1) a
stop-word reply arriving when at least one value has been accumulated
terminates the session successfully with exactly the accumulated list — the
stop reply itself is neither cast nor accumulated; (2) a stop-word reply
arriving before any value loops back to a re-prompt with `retryCount + 1`;
(3) an accepted value that makes the accumulated count reach `infiniteLimit`
terminates successfully with the accumulated list including that value;
(4) an accepted value below the limit continues the session at
`retryCount = 1` without terminating; and (5) a successful list outcome is
never empty, so the two terminations in (1) and (3) — whichever occurs
first — are the only successful exits. -/
theorem C3_infinite_termination (ctx : SessCtx) (hinf : ctx.isInfinite = true)
    (hsf : ∀ t, ctx.sendFails t = false) :
    (∀ (script : List AwaitOutcome) (args : Args) (prev c : String) (rc : Nat),
      (ctx.opts.breakout && ctx.parseCmd c) = false →
      strLower c ≠ strLower ctx.opts.cancelWord →
      strLower c = strLower ctx.opts.stopWord →
      argVals args ctx.argId ≠ [] →
      promptOne ctx (AwaitOutcome.reply c :: script) args prev rc
        = (sendEvs ctx (argVals args ctx.argId) prev rc, args,
           CollectOutcome.list (argVals args ctx.argId)))
    ∧
    (∀ (script : List AwaitOutcome) (args : Args) (prev c : String) (rc : Nat),
      (ctx.opts.breakout && ctx.parseCmd c) = false →
      strLower c ≠ strLower ctx.opts.cancelWord →
      strLower c = strLower ctx.opts.stopWord →
      argVals args ctx.argId = [] →
      promptOne ctx (AwaitOutcome.reply c :: script) args prev rc
        = (sendEvs ctx (argVals args ctx.argId) prev rc
            ++ (promptOne ctx script args c (rc + 1)).1,
           (promptOne ctx script args c (rc + 1)).2.1,
           (promptOne ctx script args c (rc + 1)).2.2))
    ∧
    (∀ (script : List AwaitOutcome) (args : Args) (prev c : String) (rc : Nat)
       (v : JSVal) (l : Nat),
      (ctx.opts.breakout && ctx.parseCmd c) = false →
      strLower c ≠ strLower ctx.opts.cancelWord →
      strLower c ≠ strLower ctx.opts.stopWord →
      ctx.castF c = Except.ok (some v) →
      ctx.opts.limit = some l →
      l ≤ (argVals args ctx.argId).length + 1 →
      promptOne ctx (AwaitOutcome.reply c :: script) args prev rc
        = (sendEvs ctx (argVals args ctx.argId) prev rc
            ++ [Ev.castAttempt c, Ev.pushed v],
           insertArg args ctx.argId (JSVal.vlist (argVals args ctx.argId ++ [v])),
           CollectOutcome.list (argVals args ctx.argId ++ [v])))
    ∧
    (∀ (script : List AwaitOutcome) (args : Args) (prev c : String) (rc : Nat)
       (v : JSVal),
      (ctx.opts.breakout && ctx.parseCmd c) = false →
      strLower c ≠ strLower ctx.opts.cancelWord →
      strLower c ≠ strLower ctx.opts.stopWord →
      ctx.castF c = Except.ok (some v) →
      (∀ l, ctx.opts.limit = some l → (argVals args ctx.argId).length + 1 < l) →
      promptOne ctx (AwaitOutcome.reply c :: script) args prev rc
        = (sendEvs ctx (argVals args ctx.argId) prev rc ++ Ev.castAttempt c ::
            Ev.pushed v ::
            (promptOne ctx script
              (insertArg args ctx.argId
                (JSVal.vlist (argVals args ctx.argId ++ [v])))
              ctx.msgContent 1).1,
           (promptOne ctx script
              (insertArg args ctx.argId
                (JSVal.vlist (argVals args ctx.argId ++ [v])))
              ctx.msgContent 1).2.1,
           (promptOne ctx script
              (insertArg args ctx.argId
                (JSVal.vlist (argVals args ctx.argId ++ [v])))
              ctx.msgContent 1).2.2))
    ∧
    (∀ (script : List AwaitOutcome) (args : Args) (prev : String) (rc : Nat)
       (vs : List JSVal),
      (promptOne ctx script args prev rc).2.2 = CollectOutcome.list vs →
      vs ≠ []) := by
  refine ⟨?_, ?_, ?_, ?_, promptOne_list_ne_nil ctx⟩
  · intro script args prev c rc hb hnc hstop hne
    simp only [promptOne, stepSend_ok ctx hsf]
    rw [if_neg (by simp [hb]), if_neg hnc, if_pos (by simp [hinf, hstop])]
    rw [if_neg (by simpa [List.isEmpty_iff] using hne)]
  · intro script args prev c rc hb hnc hstop hemp
    simp only [promptOne, stepSend_ok ctx hsf]
    rw [if_neg (by simp [hb]), if_neg hnc, if_pos (by simp [hinf, hstop])]
    rw [if_pos (by simpa [List.isEmpty_iff] using hemp)]
  · intro script args prev c rc v l hb hnc hstop hcast hl hge
    simp only [promptOne, stepSend_ok ctx hsf]
    rw [if_neg (by simp [hb]), if_neg hnc, if_neg (by simp [hstop]), hcast]
    dsimp only
    rw [if_pos hinf, hl]
    dsimp only
    rw [if_neg (by simp; omega)]
  · intro script args prev c rc v hb hnc hstop hcast hlim
    simp only [promptOne, stepSend_ok ctx hsf]
    rw [if_neg (by simp [hb]), if_neg hnc, if_neg (by simp [hstop]), hcast]
    dsimp only
    rw [if_pos hinf]
    cases hl : ctx.opts.limit with
    | none => dsimp only; rw [if_pos rfl]
    | some l =>
      dsimp only
      rw [if_pos (by have h2 := hlim l hl; simp; omega)]

/-- Witness for C3: a concrete infinite session with one accumulated value
receiving the stop word terminates with exactly that one-element list. -/
theorem C3_infinite_termination_witness :
    promptOne
      ⟨{ optsDefault with infinite := true }, true, 0, "", "m", "a",
        (fun s => Except.ok (if s = "stop" then none else some (JSVal.vstr s))),
        (fun _ => false), (fun _ => false)⟩
      [AwaitOutcome.reply "stop"] [("a", JSVal.vlist [JSVal.vstr "1"])] "m" 1
      = ([], [("a", JSVal.vlist [JSVal.vstr "1"])],
         CollectOutcome.list [JSVal.vstr "1"]) :=
  (C3_infinite_termination _ rfl (fun _ => rfl)).1 [] _ "m" "stop" 1 rfl
    (by decide) rfl (List.cons_ne_nil _ _)

/-! ## C4 — retry budget of a failing non-infinite session -/

theorem countCast_cons_cast (c : String) (evs : List Ev) :
    countCast (Ev.castAttempt c :: evs) = countCast evs + 1 := by
  simp [countCast, List.countP_cons]

theorem attemptsTarget_pos (r rc : Nat) : 1 ≤ attemptsTarget r rc := by
  unfold attemptsTarget
  split <;> omega

theorem attemptsTarget_succ (r rc : Nat) (h : rc ≤ r) :
    attemptsTarget r rc = attemptsTarget r (rc + 1) + 1 := by
  unfold attemptsTarget
  split <;> split <;> omega

/-- A non-infinite session entered at `retryCount = rc` whose every reply
(without transport failures, breakouts or cancel words) misses the cast makes
exactly `attemptsTarget retries rc` cast attempts and terminates with
`Cancel`, provided the reply script is long enough to exhaust the budget. -/
theorem promptOne_allMiss (ctx : SessCtx) (hninf : ctx.isInfinite = false)
    (hsf : ∀ t, ctx.sendFails t = false) :
    ∀ (cs : List String) (args : Args) (prev : String) (rc : Nat),
      (∀ c ∈ cs, (ctx.opts.breakout && ctx.parseCmd c) = false
        ∧ strLower c ≠ strLower ctx.opts.cancelWord
        ∧ ctx.castF c = Except.ok none) →
      attemptsTarget ctx.opts.retries rc ≤ cs.length →
      (promptOne ctx (cs.map AwaitOutcome.reply) args prev rc).2.2
          = CollectOutcome.cancelFlag
        ∧ countCast (promptOne ctx (cs.map AwaitOutcome.reply) args prev rc).1
          = attemptsTarget ctx.opts.retries rc := by
  intro cs
  induction cs with
  | nil =>
    intro args prev rc hmiss hlen
    have := attemptsTarget_pos ctx.opts.retries rc
    simp at hlen
    omega
  | cons c rest ih =>
    intro args prev rc hmiss hlen
    obtain ⟨hb, hnc, hcast⟩ := hmiss c (List.mem_cons_self c rest)
    have hmiss' := fun x hx => hmiss x (List.mem_cons_of_mem _ hx)
    by_cases hrc : rc ≤ ctx.opts.retries
    · have heq := attemptsTarget_succ ctx.opts.retries rc hrc
      have hlen' : attemptsTarget ctx.opts.retries (rc + 1) ≤ rest.length := by
        simp at hlen
        omega
      obtain ⟨ho, hc⟩ := ih args c (rc + 1) hmiss' hlen'
      have hred :
          promptOne ctx ((c :: rest).map AwaitOutcome.reply) args prev rc
            = (sendEvs ctx (argVals args ctx.argId) prev rc ++ Ev.castAttempt c ::
                (promptOne ctx (rest.map AwaitOutcome.reply) args c (rc + 1)).1,
               (promptOne ctx (rest.map AwaitOutcome.reply) args c (rc + 1)).2.1,
               (promptOne ctx (rest.map AwaitOutcome.reply) args c (rc + 1)).2.2) := by
        simp only [List.map_cons, promptOne, stepSend_ok ctx hsf]
        rw [if_neg (by simp [hb]), if_neg hnc, if_neg (by simp [hninf]), hcast]
        dsimp only
        rw [if_pos hrc]
      rw [hred]
      refine ⟨ho, ?_⟩
      rw [countCast_append, countCast_sendEvs, countCast_cons_cast, hc]
      omega
    · have hred :
          promptOne ctx ((c :: rest).map AwaitOutcome.reply) args prev rc
            = (sendEvs ctx (argVals args ctx.argId) prev rc ++ Ev.castAttempt c ::
                simpleEvs ctx PType.ended ctx.opts.ended rc c, args,
               CollectOutcome.cancelFlag) := by
        simp only [List.map_cons, promptOne, stepSend_ok ctx hsf]
        rw [if_neg (by simp [hb]), if_neg hnc, if_neg (by simp [hninf]), hcast]
        dsimp only
        rw [if_neg hrc, sendSimple_ok ctx hsf]
      rw [hred]
      refine ⟨rfl, ?_⟩
      rw [countCast_append, countCast_sendEvs, countCast_cons_cast, countCast_simpleEvs]
      unfold attemptsTarget
      rw [if_neg hrc]

/-- C4 (amended): a non-infinite `collect` session whose every reply misses
the cast performs exactly `attemptsTarget retries (1 + additionalRetry)` cast
attempts before terminating with `Cancel`; with no seed phrase
(`additionalRetry = 0`) that is exactly `retries + 1` attempts at
`retryCount = 1 .. retries + 1`, while a session seeded by a non-empty
command phrase starts at `retryCount = 2` and performs only
`max 1 retries` attempts. -/
theorem C4_attempt_count_amended (opts : PromptOptions) (amatch : ArgMatch)
    (argId : String) (castF : String → Except Unit (Option JSVal))
    (parseCmd : String → Bool) (sendFails : String → Bool)
    (msgContent commandInput : String) (args : Args) (cs : List String)
    (hninf : opts.infinite = false)
    (hsf : ∀ t, sendFails t = false)
    (hmiss : ∀ c ∈ cs, (opts.breakout && parseCmd c) = false
      ∧ strLower c ≠ strLower opts.cancelWord
      ∧ castF c = Except.ok none)
    (hlen : attemptsTarget opts.retries
      (1 + (if commandInput == "" then 0 else 1)) ≤ cs.length) :
    (Argument.collectWith opts amatch argId castF parseCmd sendFails msgContent
        commandInput args (cs.map AwaitOutcome.reply)).2.2
      = CollectOutcome.cancelFlag
    ∧ countCast (Argument.collectWith opts amatch argId castF parseCmd sendFails
        msgContent commandInput args (cs.map AwaitOutcome.reply)).1
      = attemptsTarget opts.retries (1 + (if commandInput == "" then 0 else 1)) := by
  obtain ⟨ho, hc⟩ := promptOne_allMiss
    ⟨opts, opts.infinite && (amatch != ArgMatch.separate || commandInput == ""),
      if commandInput == "" then 0 else 1, commandInput, msgContent, argId,
      castF, parseCmd, sendFails⟩
    (by simp [hninf]) hsf cs
    (if opts.infinite && (amatch != ArgMatch.separate || commandInput == "") then
      insertArg args argId (JSVal.vlist []) else args)
    msgContent (1 + (if commandInput == "" then 0 else 1)) hmiss hlen
  unfold Argument.collectWith
  dsimp only
  rw [ho]
  exact ⟨rfl, by simpa [countCast, List.countP_cons, List.countP_append] using hc⟩

/-- Counterexample to C4 as stated: a session seeded by a non-empty command
phrase (`additionalRetry = 1`, so `retryCount` starts at `2`) with
`retries = 1` and an all-missing reply performs exactly one cast attempt —
not `retries + 1 = 2` — before terminating with `Cancel`. -/
theorem C4_attempt_count_cex :
    countCast (Argument.collectWith { optsDefault with retries := 1 }
        ArgMatch.phrase "a" (fun _ => Except.ok none) (fun _ => false)
        (fun _ => false) "m" "x" []
        [AwaitOutcome.reply "y", AwaitOutcome.reply "z"]).1 = 1
    ∧ countCast (Argument.collectWith { optsDefault with retries := 1 }
        ArgMatch.phrase "a" (fun _ => Except.ok none) (fun _ => false)
        (fun _ => false) "m" "x" []
        [AwaitOutcome.reply "y", AwaitOutcome.reply "z"]).1
      ≠ { optsDefault with retries := 1 }.retries + 1 := by
  exact ⟨rfl, by decide⟩

/-- Witness for the amended C4 at an unseeded concrete session with
`retries = 1`: exactly two cast attempts, then `Cancel`. -/
theorem C4_attempt_count_witness :
    (Argument.collectWith { optsDefault with retries := 1 } ArgMatch.phrase "a"
        (fun _ => Except.ok none) (fun _ => false) (fun _ => false) "m" ""
        [] ([ "y", "z" ].map AwaitOutcome.reply)).2.2
      = CollectOutcome.cancelFlag
    ∧ countCast (Argument.collectWith { optsDefault with retries := 1 }
        ArgMatch.phrase "a" (fun _ => Except.ok none) (fun _ => false)
        (fun _ => false) "m" "" [] ([ "y", "z" ].map AwaitOutcome.reply)).1
      = attemptsTarget 1 1 :=
  C4_attempt_count_amended { optsDefault with retries := 1 } ArgMatch.phrase "a"
    (fun _ => Except.ok none) (fun _ => false) (fun _ => false) "m" "" [] ["y", "z"]
    rfl (fun _ => rfl)
    (by
      intro c hc
      simp at hc
      rcases hc with h | h <;> subst h <;> exact ⟨rfl, by decide, rfl⟩)
    (by decide)

/-! ## C1 — session-registry release -/

/-- C1 (code bug): `collect` registers the active prompt
(`handler.addPrompt`) and unregisters it only on the straight-line return
path; there is no `try`/`finally`.  At a concrete session whose transport
throws while sending the start prompt, the trace of `collect` contains
`addPrompt` but no `removePrompt` and the failure propagates
(`CollectOutcome.thrown`), so the (channel, author) registration survives —
contradicting the guaranteed-release requirement.  The second conjunct shows
the same session with a working transport does unregister on its terminal
exit. -/
theorem C1_registration_leak :
    Argument.collectWith { optsDefault with start := some (Prompter.text "S") }
        ArgMatch.phrase "a" (fun _ => Except.ok none) (fun _ => false)
        (fun t => t == "S") "m" "" [] [AwaitOutcome.reply "hi"]
      = ([Ev.addPrompt], [], CollectOutcome.thrown)
    ∧ Argument.collectWith { optsDefault with start := some (Prompter.text "S") }
        ArgMatch.phrase "a" (fun _ => Except.ok none) (fun _ => false)
        (fun _ => false) "m" "" [] [AwaitOutcome.reply "hi"]
      = ([Ev.addPrompt, Ev.sent PType.start "S", Ev.castAttempt "hi",
          Ev.removePrompt], [], CollectOutcome.cancelFlag) :=
  ⟨rfl, rfl⟩

/-! ## C2 — totality of casting -/

theorem castEnum_str (es : List EnumEntry) (s : String) :
    ∃ r, castEnum es (JSVal.vstr s) = Except.ok r := by
  induction es with
  | nil => exact ⟨none, rfl⟩
  | cons e rest ih =>
    cases e with
    | single t =>
      simp only [castEnum, jsToLowerE]
      split
      · exact ⟨_, rfl⟩
      · exact ih
    | group ss =>
      cases ss with
      | nil => simpa [castEnum] using ih
      | cons s0 tl =>
        simp only [castEnum, jsToLowerE]
        split
        · exact ⟨_, rfl⟩
        · exact ih

theorem composeFreeList_mem {ts : List ArgType} (h : composeFreeList ts = true) :
    ∀ t ∈ ts, composeFree t = true := by
  induction ts with
  | nil => intro t ht; cases ht
  | cons t0 rest ih =>
    intro t ht
    unfold composeFreeList at h
    rcases List.mem_cons.mp ht with he | he
    · subst he; exact (Bool.and_eq_true_iff.mp h).1
    · exact ih (Bool.and_eq_true_iff.mp h).2 t he

theorem castUnion_noThrow (rv : Resolver) (s : String) :
    ∀ ts : List ArgType,
      (∀ t ∈ ts, ∃ r, argCast rv t (JSVal.vstr s) = Except.ok r) →
      ∃ r, castUnion rv ts (JSVal.vstr s) = Except.ok r := by
  intro ts
  induction ts with
  | nil => exact fun _ => ⟨none, by simp [castUnion]⟩
  | cons t rest ih =>
    intro h
    obtain ⟨r, hr⟩ := h t (List.mem_cons_self t rest)
    cases r with
    | some v => exact ⟨some v, by simp [castUnion, hr]⟩
    | none =>
      obtain ⟨r2, hr2⟩ := ih (fun x hx => h x (List.mem_cons_of_mem _ hx))
      exact ⟨r2, by simp [castUnion, hr, hr2]⟩

theorem castTuple_noThrow (rv : Resolver) (s : String) :
    ∀ ts : List ArgType,
      (∀ t ∈ ts, ∃ r, argCast rv t (JSVal.vstr s) = Except.ok r) →
      ∃ r, castTuple rv ts (JSVal.vstr s) = Except.ok r := by
  intro ts
  induction ts with
  | nil => exact fun _ => ⟨some [], by simp [castTuple]⟩
  | cons t rest ih =>
    intro h
    obtain ⟨r, hr⟩ := h t (List.mem_cons_self t rest)
    cases r with
    | none => exact ⟨none, by simp [castTuple, hr]⟩
    | some v =>
      obtain ⟨r2, hr2⟩ := ih (fun x hx => h x (List.mem_cons_of_mem _ hx))
      cases r2 with
      | none => exact ⟨none, by simp [castTuple, hr, hr2]⟩
      | some vs => exact ⟨some (v :: vs), by simp [castTuple, hr, hr2]⟩

theorem castNoThrow_aux :
    ∀ (n : Nat) (t : ArgType), sizeOf t ≤ n → composeFree t = true →
      ∀ (rv : Resolver) (s : String),
        ∃ r, argCast rv t (JSVal.vstr s) = Except.ok r := by
  intro n
  induction n with
  | zero =>
    intro t ht
    exfalso
    cases t <;> simp_arith at ht
  | succ n ihn =>
    intro t ht hcf rv s
    cases t with
    | enumeration es => simpa [argCast] using castEnum_str es s
    | caster f =>
      simp only [argCast]
      exact ⟨_, rfl⟩
    | pattern re =>
      rcases h : re.test s with _ | m <;>
        (simp only [argCast, jsAsStringE, h]; exact ⟨_, rfl⟩)
    | named nm =>
      rcases h : rv nm with _ | f <;> (simp only [argCast, h]; exact ⟨_, rfl⟩)
    | union ts =>
      have hts : sizeOf ts ≤ n := by
        have h2 := ht
        simp_arith [ArgType.union.sizeOf_spec] at h2
        omega
      have helems : ∀ t ∈ ts, ∃ r, argCast rv t (JSVal.vstr s) = Except.ok r := by
        intro t htm
        have hsz := List.sizeOf_lt_of_mem htm
        exact ihn t (by omega)
          (composeFreeList_mem (by simpa [composeFree] using hcf) t htm) rv s
      simpa [argCast] using castUnion_noThrow rv s ts helems
    | tuple ts =>
      have hts : sizeOf ts ≤ n := by
        have h2 := ht
        simp_arith [ArgType.tuple.sizeOf_spec] at h2
        omega
      have helems : ∀ t ∈ ts, ∃ r, argCast rv t (JSVal.vstr s) = Except.ok r := by
        intro t htm
        have hsz := List.sizeOf_lt_of_mem htm
        exact ihn t (by omega)
          (composeFreeList_mem (by simpa [composeFree] using hcf) t htm) rv s
      obtain ⟨r, hr⟩ := castTuple_noThrow rv s ts helems
      cases r with
      | none => exact ⟨none, by simp [argCast, hr]⟩
      | some vs => exact ⟨some (JSVal.vlist vs), by simp [argCast, hr]⟩
    | validate t pred =>
      have hsub : sizeOf t ≤ n := by
        have h2 := ht
        simp_arith [ArgType.validate.sizeOf_spec] at h2
        omega
      obtain ⟨r, hr⟩ := ihn t hsub (by simpa [composeFree] using hcf) rv s
      cases r with
      | none => exact ⟨none, by simp [argCast, hr]⟩
      | some v =>
        by_cases hp : pred v (JSVal.vstr s) = true
        · exact ⟨some v, by simp [argCast, hr, hp]⟩
        · exact ⟨none, by simp [argCast, hr, hp]⟩
    | compose t1 t2 iv => simp [composeFree] at hcf

/-- Counterexample to C2 as stated: composing an always-missing caster with
an enumeration type under `ignoreVoid = true` feeds the miss (`null`) into
the enumeration's `phrase.toLowerCase()`, which throws a `TypeError` instead
of returning a value or a miss. -/
theorem C2_compose_throws_cex :
    argCast (fun _ => Option.none)
      (ArgType.compose (ArgType.caster (fun _ => JSVal.vnull))
        (ArgType.enumeration [EnumEntry.single "a"]) true)
      (JSVal.vstr "xyz") = Except.error () := by
  simp [argCast, castEnum, jsNonNull, jsToLowerE, jsOfOpt]

/-- C2 (amended): (1) for every compose-free type spec, casting a string
phrase returns a value or a miss and never throws; (2) `compose` with
`ignoreVoid = true` passes a miss of `type1` through to `type2` as the input
value `null` — the composition then returns whatever casting `null` with
`type2` yields, which throws for enumeration and pattern types (see the
counterexample) though not for caster functions or unresolved names. -/
theorem C2_cast_total_amended :
    (∀ t : ArgType, composeFree t = true → ∀ (rv : Resolver) (s : String),
      ∃ r, argCast rv t (JSVal.vstr s) = Except.ok r)
    ∧ (∀ (rv : Resolver) (t1 t2 : ArgType) (s : String),
      argCast rv t1 (JSVal.vstr s) = Except.ok none →
      argCast rv (ArgType.compose t1 t2 true) (JSVal.vstr s)
        = argCast rv t2 JSVal.vnull) := by
  constructor
  · intro t h rv s
    exact castNoThrow_aux (sizeOf t) t le_rfl h rv s
  · intro rv t1 t2 s h
    simp [argCast, h, jsOfOpt]

/-- Witness for the amended C2 at concrete types: a compose-free union casts
a string without throwing, and a composition whose first type misses hands
`null` to the second type. -/
theorem C2_cast_total_witness :
    (∃ r, argCast (fun _ => Option.none)
        (ArgType.union [ArgType.enumeration [EnumEntry.single "a"],
          ArgType.caster (fun _ => JSVal.vnull)]) (JSVal.vstr "abc")
        = Except.ok r)
    ∧ argCast (fun _ => Option.none)
        (ArgType.compose (ArgType.caster (fun _ => JSVal.vnull))
          (ArgType.caster (fun p => p)) true) (JSVal.vstr "abc")
        = argCast (fun _ => Option.none) (ArgType.caster (fun p => p)) JSVal.vnull :=
  ⟨C2_cast_total_amended.1 _ (by simp [composeFree, composeFreeList]) _ "abc",
   C2_cast_total_amended.2 _ _ _ "abc" (by simp [argCast, jsNonNull])⟩

/-! ## C9 — union: first non-miss wins -/

/-- C9: a union type misses exactly when every sub-type misses; and whenever
every type of a prefix misses while the next type succeeds with `v`, the
union returns `v` regardless of the remaining later types (they are
irrelevant to the result: no backtracking across later types once one
matches). -/
theorem C9_union_first_match (rv : Resolver) (p : JSVal) :
    (∀ ts : List ArgType,
      argCast rv (ArgType.union ts) p = Except.ok none
        ↔ ∀ t ∈ ts, argCast rv t p = Except.ok none)
    ∧ (∀ (ts1 : List ArgType) (t : ArgType) (v : JSVal),
      (∀ x ∈ ts1, argCast rv x p = Except.ok none) →
      argCast rv t p = Except.ok (some v) →
      ∀ ts2 : List ArgType,
        argCast rv (ArgType.union (ts1 ++ t :: ts2)) p
          = Except.ok (some v)) := by
  have hmain : ∀ ts : List ArgType,
      castUnion rv ts p = Except.ok none
        ↔ ∀ t ∈ ts, argCast rv t p = Except.ok none := by
    intro ts
    induction ts with
    | nil => simp [castUnion]
    | cons t rest ih =>
      constructor
      · intro h
        rcases hr : argCast rv t p with e | r
        · rw [castUnion, hr] at h
          cases h
        · cases r with
          | some v =>
            rw [castUnion, hr] at h
            cases h
          | none =>
            rw [castUnion, hr] at h
            intro x hx
            rcases List.mem_cons.mp hx with he | he
            · subst he; exact hr
            · exact (ih.mp h) x he
      · intro h
        have ht := h t (List.mem_cons_self t rest)
        rw [castUnion, ht]
        exact ih.mpr (fun x hx => h x (List.mem_cons_of_mem _ hx))
  have happ : ∀ (ts1 : List ArgType),
      (∀ x ∈ ts1, argCast rv x p = Except.ok none) →
      ∀ (t : ArgType) (v : JSVal), argCast rv t p = Except.ok (some v) →
      ∀ ts2 : List ArgType,
        castUnion rv (ts1 ++ t :: ts2) p = Except.ok (some v) := by
    intro ts1
    induction ts1 with
    | nil =>
      intro _ t v ht ts2
      rw [List.nil_append, castUnion, ht]
    | cons x rest ih =>
      intro h t v ht ts2
      have hx := h x (List.mem_cons_self x rest)
      rw [List.cons_append, castUnion, hx]
      exact ih (fun y hy => h y (List.mem_cons_of_mem _ hy)) t v ht ts2
  constructor
  · intro ts
    simpa [argCast] using hmain ts
  · intro ts1 t v h1 ht ts2
    simpa [argCast] using happ ts1 h1 t v ht ts2

/-- Witness for C9: a union of a missing caster, a succeeding caster and a
later caster returns the second type's value. -/
theorem C9_union_first_match_witness :
    argCast (fun _ => Option.none)
      (ArgType.union [ArgType.caster (fun _ => JSVal.vnull),
        ArgType.caster (fun _ => JSVal.vstr "v"),
        ArgType.caster (fun _ => JSVal.vstr "w")]) (JSVal.vstr "x")
      = Except.ok (some (JSVal.vstr "v")) :=
  (C9_union_first_match (fun _ => Option.none) (JSVal.vstr "x")).2
    [ArgType.caster (fun _ => JSVal.vnull)]
    (ArgType.caster (fun _ => JSVal.vstr "v")) (JSVal.vstr "v")
    (by
      intro x hx
      simp only [List.mem_singleton] at hx
      subst hx
      simp [argCast, jsNonNull])
    (by simp [argCast, jsNonNull])
    [ArgType.caster (fun _ => JSVal.vstr "w")]

/-! ## C7 — optional empty phrase short-circuits to the default -/

/-- C7: when the phrase trims to empty and any of the three prompt layers
marks `optional`, `process` resolves the default supplier and returns it; the
empty trace shows that neither the type caster nor the prompt engine is
invoked (no `castAttempt`, no `addPrompt`). -/
theorem C7_optional_default (atype : ArgType) (rv : Resolver)
    (argPrompt cmdPrompt handlerPrompt : Option PromptLayer) (dflt : DefaultV)
    (amatch : ArgMatch) (argId : String) (parseCmd : String → Bool)
    (sendFails : String → Bool) (msgContent : String) (args : Args)
    (script : List AwaitOutcome) (phrase : String)
    (hp : strTrim phrase = "")
    (hopt : (layerOptional argPrompt || layerOptional cmdPrompt
      || layerOptional handlerPrompt) = true) :
    Argument.process atype rv argPrompt cmdPrompt handlerPrompt dflt amatch
      argId parseCmd sendFails msgContent args script phrase
      = ([], args, ProcResult.val (resolveDefault dflt args)) := by
  simp only [Argument.process, hp, hopt]
  simp

/-- Witness for C7: a blank phrase with only the handler-wide layer marking
`optional` returns the literal default, with an empty trace. -/
theorem C7_optional_default_witness :
    Argument.process (ArgType.caster (fun p => p)) (fun _ => Option.none)
      Option.none Option.none (some { optional := some true })
      (DefaultV.lit (JSVal.vint 7)) ArgMatch.phrase "a" (fun _ => false)
      (fun _ => false) "m" [] [] "   "
      = ([], [], ProcResult.val (JSVal.vint 7)) :=
  C7_optional_default (ArgType.caster (fun p => p)) (fun _ => Option.none)
    Option.none Option.none (some { optional := some true })
    (DefaultV.lit (JSVal.vint 7)) ArgMatch.phrase "a" (fun _ => false)
    (fun _ => false) "m" [] [] "   " rfl rfl

/-! ## C8 — start vs. retry supplier selection -/

theorem sendPhase_retry_of_ne_one (ctx : SessCtx) (values : List JSVal)
    (prev : String) (rc : Nat) (h1 : rc ≠ 1) :
    ∀ pt t, sendPhase ctx values prev rc = some (pt, t) → pt = PType.retry := by
  intro pt t h
  unfold sendPhase at h
  simp only [h1, ite_false, if_true] at h
  rcases hg : getText ctx.isInfinite ctx.opts PType.retry ctx.opts.retry rc
      (if rc ≤ 1 + ctx.additionalRetry then ctx.commandInput else prev)
    with _ | t'
  · rw [hg] at h
    cases h
  · rw [hg] at h
    dsimp only at h
    by_cases he : t' = ""
    · rw [if_pos he] at h
      cases h
    · rw [if_neg he] at h
      simp only [Option.some.injEq, Prod.mk.injEq] at h
      exact h.1.symm

theorem sendPhase_none_of_one (ctx : SessCtx) (values : List JSVal)
    (prev : String) (hi : ctx.isInfinite = true) (hv : values ≠ []) :
    sendPhase ctx values prev 1 = none := by
  unfold sendPhase
  simp [hi, List.isEmpty_iff, hv]

theorem stepSend_no_start (ctx : SessCtx) (values : List JSVal) (prev : String)
    (rc : Nat) (hrc : rc = 1 → ctx.isInfinite = true ∧ values ≠ [])
    (evs0 : List Ev) (hstep : stepSend ctx values prev rc = Except.ok evs0) :
    ∀ t, Ev.sent PType.start t ∉ evs0 := by
  intro t
  unfold stepSend at hstep
  by_cases h1 : rc = 1
  · obtain ⟨hi, hv⟩ := hrc h1
    rw [h1, sendPhase_none_of_one ctx values prev hi hv] at hstep
    simp only [Except.ok.injEq] at hstep
    subst hstep
    simp
  · rcases hsp : sendPhase ctx values prev rc with _ | ptt
    · rw [hsp] at hstep
      simp only [Except.ok.injEq] at hstep
      subst hstep
      simp
    · cases ptt with
      | mk pt t' =>
        have hpt := sendPhase_retry_of_ne_one ctx values prev rc h1 pt t' hsp
        subst hpt
        rw [hsp] at hstep
        by_cases hf : ctx.sendFails t' = true
        · simp [hf] at hstep
        · simp only [hf, Bool.false_eq_true, if_neg, ite_false,
            Except.ok.injEq] at hstep
          rw [← hstep]
          simp
    
theorem sendSimple_no_start (ctx : SessCtx) (pt : PType) (pr : Option Prompter)
    (rc : Nat) (ph : String) (hpt : pt ≠ PType.start) (evs : List Ev)
    (h : sendSimple ctx pt pr rc ph = Except.ok evs) :
    ∀ t, Ev.sent PType.start t ∉ evs := by
  intro t
  unfold sendSimple at h
  rcases hg : getText ctx.isInfinite ctx.opts pt pr rc ph with _ | t'
  · rw [hg] at h
    simp only [Except.ok.injEq] at h
    subst h
    simp
  · rw [hg] at h
    dsimp only at h
    by_cases he : t' = ""
    · rw [if_pos he] at h
      simp only [Except.ok.injEq] at h
      subst h
      simp
    · rw [if_neg he] at h
      by_cases hf : ctx.sendFails t' = true
      · rw [if_pos hf] at h
        cases h
      · rw [if_neg hf] at h
        simp only [Except.ok.injEq] at h
        subst h
        intro hm
        simp only [List.mem_singleton, Ev.sent.injEq] at hm
        exact hpt hm.1.symm

/-- In a session entered at `retryCount ≥ 1` where a turn at `retryCount = 1`
can only be an infinite-mode turn with values already accumulated (which
suppresses the prompt), no message tagged with the `start` phase is ever
sent. -/
theorem promptOne_no_start (ctx : SessCtx) :
    ∀ (script : List AwaitOutcome) (args : Args) (prev : String) (rc : Nat),
      1 ≤ rc →
      (rc = 1 → ctx.isInfinite = true ∧ argVals args ctx.argId ≠ []) →
      ∀ t, Ev.sent PType.start t ∉ (promptOne ctx script args prev rc).1 := by
  intro script
  induction script with
  | nil =>
    intro args prev rc h1 hrc t
    simp only [promptOne, timeoutStep]
    rcases hstep : stepSend ctx (argVals args ctx.argId) prev rc with e | evs0
    · simp
    · rcases hsim : sendSimple ctx PType.timeout ctx.opts.timeout rc "" with e | evs1
      · exact stepSend_no_start ctx _ prev rc hrc evs0 hstep t
      · simp only [List.mem_append]
        rintro (hm | hm)
        · exact stepSend_no_start ctx _ prev rc hrc evs0 hstep t hm
        · exact sendSimple_no_start ctx PType.timeout ctx.opts.timeout rc ""
            (by simp) evs1 hsim t hm
  | cons head tail ih =>
    intro args prev rc h1 hrc t
    cases head with
    | timeout =>
      simp only [promptOne, timeoutStep]
      rcases hstep : stepSend ctx (argVals args ctx.argId) prev rc with e | evs0
      · simp
      · rcases hsim : sendSimple ctx PType.timeout ctx.opts.timeout rc "" with e | evs1
        · exact stepSend_no_start ctx _ prev rc hrc evs0 hstep t
        · simp only [List.mem_append]
          rintro (hm | hm)
          · exact stepSend_no_start ctx _ prev rc hrc evs0 hstep t hm
          · exact sendSimple_no_start ctx PType.timeout ctx.opts.timeout rc ""
              (by simp) evs1 hsim t hm
    | reply c =>
      simp only [promptOne]
      rcases hstep : stepSend ctx (argVals args ctx.argId) prev rc with e | evs0
      · simp
      · have hevs0 := stepSend_no_start ctx _ prev rc hrc evs0 hstep t
        dsimp only
        split
        · exact hevs0
        · split
          · rcases hsim : sendSimple ctx PType.cancel ctx.opts.cancel rc "" with e | evs1
            · exact hevs0
            · simp only [List.mem_append]
              rintro (hm | hm)
              · exact hevs0 hm
              · exact sendSimple_no_start ctx PType.cancel ctx.opts.cancel rc ""
                  (by simp) evs1 hsim t hm
          · split
            · split
              · simp only [List.mem_append]
                rintro (hm | hm)
                · exact hevs0 hm
                · exact ih args c (rc + 1) (by omega) (by omega) t hm
              · exact hevs0
            · rcases hcast : ctx.castF c with e | ro
              · simp only [List.mem_append, List.mem_singleton]
                rintro (hm | hm)
                · exact hevs0 hm
                · cases hm
              · cases ro with
                | none =>
                  dsimp only
                  split
                  · simp only [List.mem_append, List.mem_cons]
                    rintro (hm | hm | hm)
                    · exact hevs0 hm
                    · cases hm
                    · exact ih args c (rc + 1) (by omega) (by omega) t hm
                  · rcases hsim : sendSimple ctx PType.ended ctx.opts.ended rc c with e | evs1
                    · simp only [List.mem_append, List.mem_singleton]
                      rintro (hm | hm)
                      · exact hevs0 hm
                      · cases hm
                    · simp only [List.mem_append, List.mem_cons]
                      rintro (hm | hm | hm)
                      · exact hevs0 hm
                      · cases hm
                      · exact sendSimple_no_start ctx PType.ended ctx.opts.ended
                          rc c (by simp) evs1 hsim t hm
                | some v =>
                  dsimp only
                  split
                  · rename_i hinf
                    split
                    · simp only [List.mem_append, List.mem_cons]
                      rintro (hm | hm | hm | hm)
                      · exact hevs0 hm
                      · cases hm
                      · cases hm
                      · refine ih _ ctx.msgContent 1 le_rfl (fun _ => ⟨hinf, ?_⟩) t hm
                        rw [argVals, lookupArg_insertArg]
                        simp
                    · simp only [List.mem_append, List.mem_cons,
                        List.not_mem_nil, or_false]
                      rintro (hm | hm | hm)
                      · exact hevs0 hm
                      · cases hm
                      · cases hm
                  · simp only [List.mem_append, List.mem_cons,
                      List.not_mem_nil, or_false]
                    rintro (hm | hm)
                    · exact hevs0 hm
                    · cases hm

/-- C8 (amended): the `start` supplier (with `modifyStart`) is selected
exactly on turns with `retryCount = 1` and the `retry` supplier (with
`modifyRetry`) on every other turn; since a session seeded by a non-empty
command phrase starts at `retryCount = 1 + additionalRetryOffset = 2` and
returns to `retryCount = 1` only on silent infinite-mode accumulation turns
(which suppress the prompt), a seeded session never sends a start-phase
prompt: its first prompt is resolved from the `retry` supplier. -/
theorem C8_start_supplier_amended :
    (∀ (opts : PromptOptions) (amatch : ArgMatch) (argId : String)
       (castF : String → Except Unit (Option JSVal))
       (parseCmd : String → Bool) (sendFails : String → Bool)
       (msgContent commandInput : String) (args : Args)
       (script : List AwaitOutcome),
      commandInput ≠ "" →
      ∀ t, Ev.sent PType.start t
        ∉ (Argument.collectWith opts amatch argId castF parseCmd sendFails
            msgContent commandInput args script).1)
    ∧ (∀ (ctx : SessCtx) (values : List JSVal) (prev : String) (pt : PType)
         (t : String),
        sendPhase ctx values prev 1 = some (pt, t) → pt = PType.start)
    ∧ (∀ (ctx : SessCtx) (values : List JSVal) (prev : String) (rc : Nat)
         (pt : PType) (t : String), 2 ≤ rc →
        sendPhase ctx values prev rc = some (pt, t) → pt = PType.retry) := by
  refine ⟨?_, ?_, ?_⟩
  · intro opts amatch argId castF parseCmd sendFails msgContent commandInput
      args script hseed t
    have hnostart := promptOne_no_start
      ⟨opts, opts.infinite && (amatch != ArgMatch.separate || commandInput == ""),
        if commandInput == "" then 0 else 1, commandInput, msgContent, argId,
        castF, parseCmd, sendFails⟩
      script
      (if opts.infinite && (amatch != ArgMatch.separate || commandInput == "")
        then insertArg args argId (JSVal.vlist []) else args)
      msgContent (1 + (if commandInput == "" then 0 else 1))
      (by omega)
      (by
        intro h1
        exfalso
        have h0 : (if commandInput == "" then 0 else 1) = 0 := by omega
        simp [hseed] at h0)
      t
    unfold Argument.collectWith
    dsimp only
    split
    · simpa using hnostart
    · simp only [List.mem_cons, List.mem_append, List.not_mem_nil, or_false]
      rintro (hm | hm | hm)
      · cases hm
      · exact hnostart hm
      · cases hm
  · intro ctx values prev pt t h
    unfold sendPhase at h
    dsimp only at h
    rw [if_pos (Nat.le_add_right 1 ctx.additionalRetry)] at h
    split at h
    · split at h
      · rcases hg : getText ctx.isInfinite ctx.opts PType.start ctx.opts.start 1
            ctx.commandInput with _ | t'
        · rw [hg] at h
          exact Option.noConfusion h
        · rw [hg] at h
          dsimp only at h
          by_cases he : t' = ""
          · rw [if_pos he] at h
            exact Option.noConfusion h
          · rw [if_neg he] at h
            simp only [Option.some.injEq, Prod.mk.injEq] at h
            exact h.1.symm
      · exact Option.noConfusion h
    · rename_i hne
      exact absurd rfl hne
  · intro ctx values prev rc pt t h2 h
    exact sendPhase_retry_of_ne_one ctx values prev rc (by omega) pt t h

/-- Counterexample to C8 as stated: in a session seeded by the non-empty
command phrase `"x"` with both suppliers configured, the very first turn's
prompt is resolved from the `retry` supplier (text `"R"`), not the `start`
supplier (text `"S"`). -/
theorem C8_start_supplier_cex :
    (Argument.collectWith
      { optsDefault with
          start := some (Prompter.text "S"), retry := some (Prompter.text "R") }
      ArgMatch.phrase "a" (fun s => Except.ok (some (JSVal.vstr s)))
      (fun _ => false) (fun _ => false) "m" "x" [] [AwaitOutcome.reply "ok"]).1
      = [Ev.addPrompt, Ev.sent PType.retry "R", Ev.castAttempt "ok",
         Ev.removePrompt] := rfl

/-- Witness for the amended C8: a concrete seeded session never sends a
start-phase prompt. -/
theorem C8_start_supplier_witness :
    Ev.sent PType.start "S"
      ∉ (Argument.collectWith
          { optsDefault with
              start := some (Prompter.text "S"),
              retry := some (Prompter.text "R") }
          ArgMatch.phrase "a" (fun s => Except.ok (some (JSVal.vstr s)))
          (fun _ => false) (fun _ => false) "m" "x" []
          [AwaitOutcome.reply "ok"]).1 :=
  C8_start_supplier_amended.1
    { optsDefault with
        start := some (Prompter.text "S"), retry := some (Prompter.text "R") }
    ArgMatch.phrase "a" (fun s => Except.ok (some (JSVal.vstr s)))
    (fun _ => false) (fun _ => false) "m" "x" [] [AwaitOutcome.reply "ok"]
    (by simp) "S"

/-! ## C10 — accumulated values stay visible through `args` -/

theorem stepSend_pushed (ctx : SessCtx) (values : List JSVal) (prev : String)
    (rc : Nat) (evs0 : List Ev)
    (hstep : stepSend ctx values prev rc = Except.ok evs0) :
    pushedVals evs0 = [] := by
  unfold stepSend at hstep
  rcases hsp : sendPhase ctx values prev rc with _ | ptt
  · rw [hsp] at hstep
    simp only [Except.ok.injEq] at hstep
    subst hstep
    rfl
  · cases ptt with
    | mk pt t =>
      rw [hsp] at hstep
      dsimp only at hstep
      by_cases hf : ctx.sendFails t = true
      · rw [if_pos hf] at hstep
        cases hstep
      · rw [if_neg hf] at hstep
        simp only [Except.ok.injEq] at hstep
        subst hstep
        rfl

theorem sendSimple_pushed (ctx : SessCtx) (pt : PType) (pr : Option Prompter)
    (rc : Nat) (ph : String) (evs : List Ev)
    (h : sendSimple ctx pt pr rc ph = Except.ok evs) :
    pushedVals evs = [] := by
  unfold sendSimple at h
  rcases hg : getText ctx.isInfinite ctx.opts pt pr rc ph with _ | t
  · rw [hg] at h
    simp only [Except.ok.injEq] at h
    subst h
    rfl
  · rw [hg] at h
    dsimp only at h
    by_cases he : t = ""
    · rw [if_pos he] at h
      simp only [Except.ok.injEq] at h
      subst h
      rfl
    · rw [if_neg he] at h
      by_cases hf : ctx.sendFails t = true
      · rw [if_pos hf] at h
        cases h
      · rw [if_neg hf] at h
        simp only [Except.ok.injEq] at h
        subst h
        rfl

theorem argVals_of_lookup (args : Args) (id : String) (vs : List JSVal)
    (h : lookupArg args id = some (JSVal.vlist vs)) : argVals args id = vs := by
  unfold argVals
  rw [h]

/-- The single-store invariant of the accumulation array: if `args[id]` holds
the array `vs0` at entry, then at every exit of `promptOne` — value, list,
cancel, retry or thrown — `args[id]` holds exactly `vs0` followed by every
value pushed during the run. -/
theorem promptOne_args_track (ctx : SessCtx) :
    ∀ (script : List AwaitOutcome) (args : Args) (prev : String) (rc : Nat)
      (vs0 : List JSVal),
      lookupArg args ctx.argId = some (JSVal.vlist vs0) →
      lookupArg (promptOne ctx script args prev rc).2.1 ctx.argId
        = some (JSVal.vlist
            (vs0 ++ pushedVals (promptOne ctx script args prev rc).1)) := by
  intro script
  induction script with
  | nil =>
    intro args prev rc vs0 h0
    simp only [promptOne, timeoutStep]
    rcases hstep : stepSend ctx (argVals args ctx.argId) prev rc with e | evs0
    · simpa [pushedVals] using h0
    · rcases hsim : sendSimple ctx PType.timeout ctx.opts.timeout rc "" with e | evs1
      · simpa [stepSend_pushed ctx _ prev rc evs0 hstep] using h0
      · simpa [pushedVals_append, stepSend_pushed ctx _ prev rc evs0 hstep,
          sendSimple_pushed ctx PType.timeout ctx.opts.timeout rc "" evs1 hsim]
          using h0
  | cons head tail ih =>
    intro args prev rc vs0 h0
    cases head with
    | timeout =>
      simp only [promptOne, timeoutStep]
      rcases hstep : stepSend ctx (argVals args ctx.argId) prev rc with e | evs0
      · simpa [pushedVals] using h0
      · rcases hsim : sendSimple ctx PType.timeout ctx.opts.timeout rc "" with e | evs1
        · simpa [stepSend_pushed ctx _ prev rc evs0 hstep] using h0
        · simpa [pushedVals_append, stepSend_pushed ctx _ prev rc evs0 hstep,
            sendSimple_pushed ctx PType.timeout ctx.opts.timeout rc "" evs1 hsim]
            using h0
    | reply c =>
      simp only [promptOne]
      rcases hstep : stepSend ctx (argVals args ctx.argId) prev rc with e | evs0
      · simpa [pushedVals] using h0
      · have hp0 := stepSend_pushed ctx _ prev rc evs0 hstep
        dsimp only
        split
        · simpa [hp0] using h0
        · split
          · rcases hsim : sendSimple ctx PType.cancel ctx.opts.cancel rc "" with e | evs1
            · simpa [hp0] using h0
            · simpa [pushedVals_append, hp0,
                sendSimple_pushed ctx PType.cancel ctx.opts.cancel rc "" evs1 hsim]
                using h0
          · split
            · split
              · have hrec := ih args c (rc + 1) vs0 h0
                simpa [pushedVals_append, hp0] using hrec
              · simpa [hp0] using h0
            · rcases hcast : ctx.castF c with e | ro
              · simpa [pushedVals_append, hp0, pushedVals] using h0
              · cases ro with
                | none =>
                  dsimp only
                  split
                  · have hrec := ih args c (rc + 1) vs0 h0
                    simpa [pushedVals_append, pushedVals, hp0] using hrec
                  · rcases hsim : sendSimple ctx PType.ended ctx.opts.ended rc c with e | evs1
                    · simpa [pushedVals_append, pushedVals, hp0] using h0
                    · simpa [pushedVals_append, pushedVals, hp0,
                        sendSimple_pushed ctx PType.ended ctx.opts.ended rc c evs1 hsim]
                        using h0
                | some v =>
                  dsimp only
                  rw [argVals_of_lookup args ctx.argId vs0 h0]
                  split
                  · split
                    · have hrec := ih
                        (insertArg args ctx.argId (JSVal.vlist (vs0 ++ [v])))
                        ctx.msgContent 1 (vs0 ++ [v])
                        (lookupArg_insertArg args ctx.argId
                          (JSVal.vlist (vs0 ++ [v])))
                      simp only [pushedVals_append, pushedVals, hp0]
                      simpa using hrec
                    · simp only [pushedVals_append, pushedVals, hp0]
                      simpa using lookupArg_insertArg args ctx.argId
                        (JSVal.vlist (vs0 ++ [v]))
                  · simpa [pushedVals_append, pushedVals, hp0] using h0

/-- C10: in an infinite-mode session, `collect` binds `args[id]` to the
accumulation array at entry and every accepted value is pushed onto that same
array, so at every terminal exit — including `Cancel`, `Retry` and a
propagated transport failure — `args[id]` holds exactly the values accepted
before the exit (the `pushed` events of the trace, in order). -/
theorem C10_args_aliasing (opts : PromptOptions) (amatch : ArgMatch)
    (argId : String) (castF : String → Except Unit (Option JSVal))
    (parseCmd : String → Bool) (sendFails : String → Bool)
    (msgContent commandInput : String) (args : Args)
    (script : List AwaitOutcome)
    (hinf : (opts.infinite && (amatch != ArgMatch.separate || commandInput == ""))
      = true) :
    lookupArg (Argument.collectWith opts amatch argId castF parseCmd sendFails
        msgContent commandInput args script).2.1 argId
      = some (JSVal.vlist (pushedVals
          (Argument.collectWith opts amatch argId castF parseCmd sendFails
            msgContent commandInput args script).1)) := by
  have htrack := promptOne_args_track
    ⟨opts, opts.infinite && (amatch != ArgMatch.separate || commandInput == ""),
      if commandInput == "" then 0 else 1, commandInput, msgContent, argId,
      castF, parseCmd, sendFails⟩
    script (insertArg args argId (JSVal.vlist [])) msgContent
    (1 + (if commandInput == "" then 0 else 1)) []
    (lookupArg_insertArg args argId (JSVal.vlist []))
  unfold Argument.collectWith
  dsimp only
  rw [if_pos hinf]
  split
  · simpa [pushedVals] using htrack
  · simpa [pushedVals, pushedVals_append] using htrack

/-- Witness for C10: an infinite session that accepts `"1"` and is then
cancelled by the cancel word still exposes the accepted value through
`args`. -/
theorem C10_args_aliasing_witness :
    lookupArg (Argument.collectWith { optsDefault with infinite := true }
        ArgMatch.phrase "a" (fun s => Except.ok (some (JSVal.vstr s)))
        (fun _ => false) (fun _ => false) "m" "" []
        [AwaitOutcome.reply "1", AwaitOutcome.reply "cancel"]).2.1 "a"
      = some (JSVal.vlist (pushedVals
          (Argument.collectWith { optsDefault with infinite := true }
            ArgMatch.phrase "a" (fun s => Except.ok (some (JSVal.vstr s)))
            (fun _ => false) (fun _ => false) "m" "" []
            [AwaitOutcome.reply "1", AwaitOutcome.reply "cancel"]).1)) :=
  C10_args_aliasing { optsDefault with infinite := true } ArgMatch.phrase "a"
    (fun s => Except.ok (some (JSVal.vstr s))) (fun _ => false) (fun _ => false)
    "m" "" [] [AwaitOutcome.reply "1", AwaitOutcome.reply "cancel"] rfl
